import Mathlib

/-!
Verification of koron/otf2ccbdf: a 1-bit packed bitmap surface
(`internal/bitimg/bitimg.go`) and the OTF/TTF → BDF conversion pipeline
(`main.go`).

Go machine integers (`int`, `int32`) are modelled as `Int` with Go's
truncated division (`Int.tdiv`) and truncated remainder (`Int.tmod`);
`byte` values are modelled as `Nat` (kept below 256 by the operations that
produce them).  A Go runtime panic (out-of-range slice index, negative
shift count, integer division by zero) is modelled as `none` of an
`Option` result.
-/

namespace Bitimg

/-- A color as seen through Go's `image/color` interfaces: either the
bitmap's own binary pixel type `Bit` (bitimg.go line 10), a `color.Gray`
(carrying its 8-bit luminance `Y`), or an arbitrary color represented by
the alpha-premultiplied 16-bit quadruple its `RGBA()` method reports. -/
inductive Color where
  | bit (v : Bool)
  | gray (y : Nat)
  | rgba (r g b a : Nat)
deriving DecidableEq

/-- The luminance computed by Go's `color.grayModel` for a non-Gray color:
`y := (19595*r + 38470*g + 7471*b + 1<<15) >> 24` on `uint32` values
(no overflow occurs for r, g, b ≤ 0xffff since 19595+38470+7471 = 65536). -/
def grayY (r g b : Nat) : Nat :=
  (19595 * r + 38470 * g + 7471 * b + 32768) >>> 24

/-- `toBit`, bitimg.go lines 16–24: a value that is already a `Bit`
round-trips exactly (Go's type switch, without grayscale conversion);
every other color is converted through `color.GrayModel` and its
luminance compared against 127.  `GrayModel` returns a `color.Gray`
unchanged (its `Y` field is a `uint8`, hence already below 256); any
other color is sent through `grayY` and truncated to `uint8`
(the `% 256`). -/
def toBit : Color → Bool
  | .bit v => v
  | .gray y => decide (127 < y)
  | .rgba r g b _ => decide (127 < grayY r g b % 256)

/-- `color.White` (`color.Gray16{0xffff}`) via its `RGBA()` quadruple. -/
def white : Color := .rgba 65535 65535 65535 65535

/-- `color.Black` (`color.Gray16{0}`) via its `RGBA()` quadruple. -/
def black : Color := .rgba 0 0 0 65535

/-- Go's `image.Rectangle` restricted to the fields bitimg uses. -/
structure Rectangle where
  minX : Int
  minY : Int
  maxX : Int
  maxY : Int
deriving DecidableEq

/-- `image.Rectangle.Dx()` -/
def Rectangle.dx (r : Rectangle) : Int := r.maxX - r.minX

/-- `image.Rectangle.Dy()` -/
def Rectangle.dy (r : Rectangle) : Int := r.maxY - r.minY

/-- `bitimg.Image`, bitimg.go lines 33–37: a bit-packed buffer `buf`,
the row stride in bytes `xn`, and the bounding rectangle. -/
structure Image where
  buf : List Nat
  xn : Int
  rect : Rectangle
deriving DecidableEq

/-- `bitimg.New`, bitimg.go lines 39–48: `xn = (w+7)/8`,
`buf = make([]byte, xn*h)` (zero-filled).  Go's `make` panics when
`xn*h < 0`; the claims only construct images with positive dimensions,
where `(xn*h).toNat = xn*h`. -/
def New (r : Rectangle) : Image :=
  { buf := List.replicate ((r.dx + 7).tdiv 8 * r.dy).toNat 0
    xn := (r.dx + 7).tdiv 8
    rect := r }

/-- `(*Image).Clear`, bitimg.go lines 54–58: zero every byte in place. -/
def Image.Clear (img : Image) : Image :=
  { img with buf := img.buf.map (fun _ => 0) }

/-- `(*Image).address`, bitimg.go lines 73–77: translate to
rectangle-relative coordinates, then `(y*xn + x/8, x%8)` with Go's
truncated `/` and `%`. -/
def Image.address (img : Image) (x y : Int) : Int × Int :=
  ((y - img.rect.minY) * img.xn + (x - img.rect.minX).tdiv 8,
   (x - img.rect.minX).tmod 8)

/-- `(*Image).At`, bitimg.go lines 79–86.  `byte(0x80) >> shift` panics in
Go when `shift` is negative (`none` here); `img.buf[idx]` panics when
`idx` is outside `[0, len)`.  Otherwise the addressed bit selects
`color.White` or `color.Black`. -/
def Image.At (img : Image) (x y : Int) : Option Color :=
  if (img.address x y).2 < 0 then none
  else if (img.address x y).1 < 0 ∨
      (img.buf.length : Int) ≤ (img.address x y).1 then none
  else if img.buf.getD (img.address x y).1.toNat 0
      &&& (128 >>> (img.address x y).2.toNat) ≠ 0 then some white
  else some black

/-- `(*Image).Set`, bitimg.go lines 88–98: if `idx >= len(buf)` the call
returns immediately (no-op); otherwise a negative index or a negative
shift panics (`none`); otherwise the addressed bit is ORed in or masked
out according to `toBit c`. -/
def Image.Set (img : Image) (x y : Int) (c : Color) : Option Image :=
  if (img.buf.length : Int) ≤ (img.address x y).1 then some img
  else if (img.address x y).1 < 0 ∨ (img.address x y).2 < 0 then none
  else if toBit c then
    some { img with
           buf := img.buf.set (img.address x y).1.toNat
                    (img.buf.getD (img.address x y).1.toNat 0
                      ||| 128 >>> (img.address x y).2.toNat) }
  else
    some { img with
           buf := img.buf.set (img.address x y).1.toNat
                    (img.buf.getD (img.address x y).1.toNat 0
                      &&& (255 ^^^ 128 >>> (img.address x y).2.toNat)) }

/-- The structural invariant every image built by `New` (and preserved by
`Set`/`Clear`) satisfies: the stride matches the rectangle and the buffer
holds exactly one stride per row. -/
def Image.Wf (img : Image) : Prop :=
  img.xn = (img.rect.dx + 7).tdiv 8 ∧
  (img.buf.length : Int) = img.xn * img.rect.dy

/-- `(x, y)` lies inside the image's rectangle (Go `image.Point.In`). -/
def Image.InBounds (img : Image) (x y : Int) : Prop :=
  img.rect.minX ≤ x ∧ x < img.rect.maxX ∧
  img.rect.minY ≤ y ∧ y < img.rect.maxY

instance (img : Image) : Decidable img.Wf := by
  unfold Image.Wf; infer_instance

instance (img : Image) (x y : Int) : Decidable (img.InBounds x y) := by
  unfold Image.InBounds; infer_instance

/-- The byte update `Set` performs on the addressed byte once the guards
have passed, with the addressed bit expressed as `2 ^ k`: OR the bit in
for a foreground pixel, AND it out (`&^` against `0xFF`) otherwise. -/
def setByte (old k : Nat) (v : Bool) : Nat :=
  if v then old ||| 2 ^ k else old &&& (255 ^^^ 2 ^ k)

end Bitimg

namespace Otf2ccbdf

open Bitimg

/-- `fixed.Int26_6.Round()`: `int((x + 1<<5) >> 6)`, an arithmetic shift,
i.e. floor division by 64 (`Int26_6` is 32-bit; advances of real faces
are far from wrap-around, which is out of scope here). -/
def round26_6 (x : Int) : Int := (x + 32).fdiv 64

/-- `runeIter`, main.go lines 26–41: scan codepoints 0 through 0xffff in
order, skipping any for which the face reports no advance or the filter
(defaulted to accept-all when nil) rejects; yield `(r, adv)` otherwise.
The face is modelled by its `GlyphAdvance` method, a pure function from
codepoint to an optional advance. -/
def runeIter (advance : Nat → Option Int) (filter : Option (Nat → Bool)) :
    List (Nat × Int) :=
  let f := filter.getD (fun _ => true)
  (List.range 0x10000).filterMap fun r =>
    match advance r with
    | none => none
    | some adv => if f r then some (r, adv) else none

/-- The converter's integer cell geometry, from `newBDFConverter`
(main.go lines 80–89): `halfWidth = size/2`, `fullWidth = size`,
`height = size`, rounded ascent and descent. -/
structure Converter where
  size : Int
  halfWidth : Int
  fullWidth : Int
  height : Int
  ascent : Int
  descent : Int
deriving DecidableEq

/-- `newBDFConverter`'s geometry fields (main.go lines 80–89), with the
externally supplied rounded ascent/descent. -/
def mkConverter (size ascent descent : Int) : Converter :=
  { size := size
    halfWidth := size.tdiv 2
    fullWidth := size
    height := size
    ascent := ascent
    descent := descent }

/-- The width accumulated per glyph by `writeHeader`'s metrics loop
(main.go lines 126–133): full width when the rounded advance exceeds the
half width, half width otherwise. -/
def headerWidth (cvt : Converter) (adv : Int) : Int :=
  if round26_6 adv > cvt.halfWidth then cvt.fullWidth else cvt.halfWidth

/-- The cell width selected by `writeBody` for a glyph (main.go lines
168–176): full width when the rounded advance exceeds the half width,
half width otherwise. -/
def bodyWidth (cvt : Converter) (adv : Int) : Int :=
  if round26_6 adv > cvt.halfWidth then cvt.fullWidth else cvt.halfWidth

/-- `writeHeader`'s glyph count (main.go lines 122–133): one per pair
yielded by `runeIter` with a nil filter. -/
def glyphCount (advance : Nat → Option Int) : Nat :=
  (runeIter advance none).length

/-- `writeHeader`'s width sum (main.go lines 122–133). -/
def widthSum (cvt : Converter) (advance : Nat → Option Int) : Int :=
  ((runeIter advance none).map (fun p => headerWidth cvt p.2)).sum

/-- The `averageWidth` value `writeHeader` passes to the header template
(main.go line 139): `widthSum * 10 / glyphCount` with Go `int` division,
which panics (`none`) when `glyphCount` is zero. -/
def averageWidth (cvt : Converter) (advance : Nat → Option Int) :
    Option Int :=
  if glyphCount advance = 0 then none
  else some ((widthSum cvt advance * 10).tdiv (glyphCount advance))

/-- The argument validation performed by `Run` before any font loading or
file creation (main.go lines 218–227): returns the error it reports, or
`none` when validation passes and `Run` proceeds to `newBDFConverter`
(font loading) and then `Convert` (output-file creation). -/
def runValidate (nargs : Nat) (outName : String) (size : Int) :
    Option String :=
  if nargs = 0 then
    some "an argument is required: the OTF/TTF file to convert to BDF"
  else if outName = "" then some "-out must be specified"
  else if size.tmod 2 = 1 then some "-size must be a multiple of 2"
  else none

/-- One uppercase hex digit, as produced by Go's `fmt` verb `%X`. -/
def hexDigit (n : Nat) : Char :=
  if n < 10 then Char.ofNat (48 + n) else Char.ofNat (55 + n)

/-- One byte rendered by `%X`: exactly two uppercase hex digits. -/
def hexByte (b : Nat) : List Char := [hexDigit (b / 16), hexDigit (b % 16)]

/-- One bitmap row rendered by `fmt.Fprintf(bb, "%X\n", b[:xn])`
(main.go line 188): the row's bytes as uppercase hex, no separators. -/
def hexRow (bs : List Nat) : String := String.mk (bs.map hexByte).flatten

/-- The bitmap dump loop of `writeBody` (main.go lines 187–190) and
`toBDF` (main.go lines 384–387): peel `xn` bytes per line until the
buffer is exhausted.  The Go loop never terminates when `xn = 0` and the
buffer is non-empty, and panics when `0 < xn` does not divide the length;
both are unreachable since `New` gives `len(buf) = xn * h` with
`xn ≥ 1`. -/
def dumpRows (xn : Nat) (b : List Nat) : List String :=
  if h : b = [] ∨ xn = 0 then []
  else hexRow (b.take xn) :: dumpRows xn (b.drop xn)
termination_by b.length
decreasing_by
  rcases b with _ | ⟨hd, tl⟩
  · exact absurd (Or.inl rfl) h
  · simp only [List.length_drop, List.length_cons]
    omega

end Otf2ccbdf

/-! ## Helper lemmas -/

namespace Bitimg

/-- `byte(0x80) >> shift` for an in-range shift is the single bit
`2 ^ (7 - shift)`. -/
theorem mask_shiftRight {s : Nat} (h : s < 8) : 128 >>> s = 2 ^ (7 - s) := by
  interval_cases s <;> rfl

/-- The Go test `buf[idx] & mask != 0` for a one-bit mask is a
`testBit`. -/
theorem and_two_pow_ne_zero (x k : Nat) :
    (x &&& 2 ^ k ≠ 0) ↔ x.testBit k = true := by
  rw [Nat.and_two_pow]
  cases h : x.testBit k <;> simp [(Nat.two_pow_pos k).ne']

end Bitimg

namespace Otf2ccbdf

/-- Go's `size % 2 == 1` holds exactly for positive odd `size`: Go `%`
is a truncated remainder, so a negative odd `size` gives `-1`. -/
theorem tmod_two_eq_one_iff (s : Int) :
    s.tmod 2 = 1 ↔ 0 < s ∧ ¬ (2 ∣ s) := by
  rcases s with n | n
  · have h1 : (Int.ofNat n).tmod 2 = ((n % 2 : Nat) : Int) := rfl
    have h2 : Int.ofNat n = (n : Int) := rfl
    rw [h1, h2]
    omega
  · have h1 : (Int.negSucc n).tmod 2 = -(((n + 1) % 2 : Nat) : Int) := rfl
    have h2 : Int.negSucc n = -(n + 1 : Int) := rfl
    rw [h1, h2]
    omega

end Otf2ccbdf

namespace Bitimg

/-- Basic consequences of `Wf` on the geometry of a well-formed image
with a non-degenerate rectangle. -/
theorem Image.wf_bounds {img : Image} (hwf : img.Wf)
    (hdx0 : 0 ≤ img.rect.dx) :
    0 ≤ img.xn ∧ img.rect.dx ≤ 8 * img.xn ∧
    (img.buf.length : Int) = img.xn * img.rect.dy := by
  obtain ⟨hxn, hlen⟩ := hwf
  have e : (img.rect.dx + 7).tdiv 8 = (img.rect.dx + 7) / 8 :=
    Int.tdiv_eq_ediv (by omega) (by norm_num)
  rw [e] at hxn
  exact ⟨by omega, by omega, hlen⟩

/-- On a well-formed image, `address` sends an in-bounds coordinate to a
byte index inside the buffer and a shift in `[0, 8)`, and the pair
determines the coordinate linearly. -/
theorem Image.address_bounds {img : Image} {x y : Int} (hwf : img.Wf)
    (hin : img.InBounds x y) :
    0 ≤ (img.address x y).1 ∧
    (img.address x y).1 < (img.buf.length : Int) ∧
    0 ≤ (img.address x y).2 ∧ (img.address x y).2 < 8 ∧
    8 * (img.address x y).1 + (img.address x y).2
      = (y - img.rect.minY) * (8 * img.xn) + (x - img.rect.minX) := by
  obtain ⟨h1, h2, h3, h4⟩ := hin
  obtain ⟨hxn0, hdx8, hlen⟩ :=
    Image.wf_bounds hwf (by unfold Rectangle.dx; omega)
  obtain ⟨hxn, _⟩ := hwf
  unfold Image.address
  have hxr0 : 0 ≤ x - img.rect.minX := by omega
  have hyr0 : 0 ≤ y - img.rect.minY := by omega
  have hdx : x - img.rect.minX < img.rect.dx := by
    unfold Rectangle.dx; omega
  have hdy : y - img.rect.minY < img.rect.dy := by
    unfold Rectangle.dy; omega
  rw [Int.tdiv_eq_ediv hxr0 (by norm_num),
      Int.tmod_eq_emod hxr0 (by norm_num)]
  have hq0 : 0 ≤ (x - img.rect.minX) / 8 := Int.ediv_nonneg hxr0 (by norm_num)
  have hq : (x - img.rect.minX) / 8 < img.xn := by omega
  have hmul0 : 0 ≤ (y - img.rect.minY) * img.xn := mul_nonneg hyr0 hxn0
  have hstep : (y - img.rect.minY + 1) * img.xn ≤ img.rect.dy * img.xn :=
    mul_le_mul_of_nonneg_right (by omega) hxn0
  have hexp : (y - img.rect.minY + 1) * img.xn
      = (y - img.rect.minY) * img.xn + img.xn := by ring
  have hcomm : img.rect.dy * img.xn = img.xn * img.rect.dy := by ring
  refine ⟨by omega, by omega, by omega, by omega, ?_⟩
  have hde : 8 * ((x - img.rect.minX) / 8) + (x - img.rect.minX) % 8
      = x - img.rect.minX := Int.ediv_add_emod _ 8
  linear_combination hde

/-- On a well-formed image, `address` is injective on in-bounds
coordinates. -/
theorem Image.address_inj {img : Image} {x y x' y' : Int} (hwf : img.Wf)
    (hin : img.InBounds x y) (hin' : img.InBounds x' y')
    (heq : img.address x y = img.address x' y') : x = x' ∧ y = y' := by
  obtain ⟨_, _, _, _, hl⟩ := Image.address_bounds hwf hin
  obtain ⟨_, _, _, _, hl'⟩ := Image.address_bounds hwf hin'
  rw [heq, hl'] at hl
  obtain ⟨a1, a2, a3, a4⟩ := hin
  obtain ⟨b1, b2, b3, b4⟩ := hin'
  obtain ⟨hxn0, hdx8, _⟩ :=
    Image.wf_bounds hwf (by unfold Rectangle.dx; omega)
  have hdx : x - img.rect.minX < img.rect.dx := by unfold Rectangle.dx; omega
  have hdx' : x' - img.rect.minX < img.rect.dx := by unfold Rectangle.dx; omega
  have key : (y' - img.rect.minY - (y - img.rect.minY)) * (8 * img.xn)
      = (x - img.rect.minX) - (x' - img.rect.minX) := by linear_combination hl
  have hd0 : y' - img.rect.minY - (y - img.rect.minY) = 0 := by
    rcases lt_trichotomy (y' - img.rect.minY - (y - img.rect.minY)) 0 with h | h | h
    · have hle : (y' - img.rect.minY - (y - img.rect.minY)) * (8 * img.xn)
          ≤ (-1) * (8 * img.xn) :=
        mul_le_mul_of_nonneg_right (by omega) (by omega)
      rw [key] at hle
      omega
    · exact h
    · have hle : 1 * (8 * img.xn)
          ≤ (y' - img.rect.minY - (y - img.rect.minY)) * (8 * img.xn) :=
        mul_le_mul_of_nonneg_right (by omega) (by omega)
      rw [key] at hle
      omega
  rw [hd0, zero_mul] at key
  omega

/-- On a well-formed image, `Set` at an in-bounds coordinate succeeds and
rewrites exactly one byte, ORing the addressed bit in for a foreground
color and masking it out for a background one. -/
theorem Image.Set_some {img : Image} {x y : Int} (c : Color) (hwf : img.Wf)
    (hin : img.InBounds x y) :
    img.Set x y c = some { img with
      buf := img.buf.set (img.address x y).1.toNat
        (setByte (img.buf.getD (img.address x y).1.toNat 0)
          (7 - (img.address x y).2.toNat) (toBit c)) } := by
  obtain ⟨hi0, hil, hs0, hs8, _⟩ := Image.address_bounds hwf hin
  have hm : 128 >>> (img.address x y).2.toNat
      = 2 ^ (7 - (img.address x y).2.toNat) :=
    mask_shiftRight (by omega)
  unfold Image.Set setByte
  rw [if_neg (by omega), if_neg (by omega), hm]
  by_cases hc : toBit c
  · rw [if_pos hc, if_pos hc]
  · rw [if_neg hc, if_neg hc]

/-- On a well-formed image, `At` at an in-bounds coordinate succeeds and
reports the addressed bit. -/
theorem Image.At_testBit {img : Image} {x y : Int} (hwf : img.Wf)
    (hin : img.InBounds x y) :
    img.At x y = some
      (if (img.buf.getD (img.address x y).1.toNat 0).testBit
            (7 - (img.address x y).2.toNat)
       then white else black) := by
  obtain ⟨hi0, hil, hs0, hs8, _⟩ := Image.address_bounds hwf hin
  have hm : 128 >>> (img.address x y).2.toNat
      = 2 ^ (7 - (img.address x y).2.toNat) :=
    mask_shiftRight (by omega)
  unfold Image.At
  rw [if_neg (by omega), if_neg (by omega), hm]
  by_cases hb : (img.buf.getD (img.address x y).1.toNat 0).testBit
      (7 - (img.address x y).2.toNat)
  · rw [if_pos ((and_two_pow_ne_zero _ _).mpr hb), if_pos hb]
  · rw [if_neg fun hne => hb ((and_two_pow_ne_zero _ _).mp hne),
        if_neg hb]

end Bitimg

/-! ## Claim theorems -/

namespace Bitimg

/-- C1 (counterexample): the claim says every out-of-bounds `Set` is a
no-op that never panics, including coordinates below the rectangle's
minimum.  On an 8×8 bitmap, `Set(0, -1, ...)` computes byte index `-1`,
which passes the `idx >= len(buf)` guard and panics on `buf[-1]`
(modelled as `none`), so the call is not a no-op returning the unchanged
image. -/
theorem Set_below_min_panics :
    (New ⟨0, 0, 8, 8⟩).Set 0 (-1) (Color.bit true) = none ∧
    ¬ (New ⟨0, 0, 8, 8⟩).InBounds 0 (-1) := by
  constructor
  · rfl
  · decide

/-- C1 (amended): `Set` is a silent no-op (buffer untouched, no panic,
no growth) whenever the computed byte index is at or beyond the end of
the buffer; and whenever `Set` returns at all, the buffer never grows
(its length is preserved). -/
theorem Set_beyond_end_noop (img : Image) (x y : Int) (c : Color) :
    ((img.buf.length : Int) ≤ (img.address x y).1 →
      img.Set x y c = some img) ∧
    (∀ img', img.Set x y c = some img' →
      img'.buf.length = img.buf.length) := by
  constructor
  · intro h
    unfold Image.Set
    rw [if_pos h]
  · intro img' h
    unfold Image.Set at h
    split_ifs at h
    · cases h
      rfl
    · cases h
      simp [List.length_set]
    · cases h
      simp [List.length_set]

/-- C1 witness for `Set_beyond_end_noop`. -/
theorem Set_beyond_end_noop_witness :
    ((((New ⟨0, 0, 8, 8⟩).buf.length : Int)
        ≤ ((New ⟨0, 0, 8, 8⟩).address 0 9).1) ∧
      (New ⟨0, 0, 8, 8⟩).Set 0 9 (Color.bit true) = some (New ⟨0, 0, 8, 8⟩)) ∧
    ((New ⟨0, 0, 8, 8⟩).Set 3 3 (Color.bit true) = some
        { New ⟨0, 0, 8, 8⟩ with buf := [0, 0, 0, 16, 0, 0, 0, 0] } ∧
      ({ New ⟨0, 0, 8, 8⟩ with
          buf := [0, 0, 0, 16, 0, 0, 0, 0] } : Image).buf.length
        = (New ⟨0, 0, 8, 8⟩).buf.length) :=
  ⟨⟨by decide, (Set_beyond_end_noop (New ⟨0, 0, 8, 8⟩) 0 9
      (Color.bit true)).1 (by decide)⟩,
   ⟨by decide, (Set_beyond_end_noop (New ⟨0, 0, 8, 8⟩) 3 3
      (Color.bit true)).2 _ (by decide)⟩⟩

/-- C8: for positive dimensions, `New` allocates an all-zero buffer, the
row stride is `ceil(width/8)` (characterised by
`width ≤ 8*xn < width + 8`), and the buffer length equals
`rowStride * height`. -/
theorem New_spec (r : Rectangle) (hdx : 0 < r.dx) (hdy : 0 < r.dy) :
    (New r).buf = List.replicate (New r).buf.length 0 ∧
    (New r).xn = (r.dx + 7).tdiv 8 ∧
    r.dx ≤ 8 * (New r).xn ∧ 8 * (New r).xn < r.dx + 8 ∧
    ((New r).buf.length : Int) = (New r).xn * r.dy := by
  have e : (r.dx + 7).tdiv 8 = (r.dx + 7) / 8 :=
    Int.tdiv_eq_ediv (by omega) (by norm_num)
  have hxn1 : 1 ≤ (r.dx + 7).tdiv 8 := by rw [e]; omega
  refine ⟨?_, rfl, ?_, ?_, ?_⟩
  · show List.replicate _ 0 = List.replicate (List.replicate _ (0 : Nat)).length 0
    rw [List.length_replicate]
  · show r.dx ≤ 8 * (r.dx + 7).tdiv 8
    rw [e]; omega
  · show 8 * (r.dx + 7).tdiv 8 < r.dx + 8
    rw [e]; omega
  · show ((List.replicate ((r.dx + 7).tdiv 8 * r.dy).toNat (0 : Nat)).length : Int)
      = (r.dx + 7).tdiv 8 * r.dy
    rw [List.length_replicate,
        Int.toNat_of_nonneg (mul_nonneg (by omega) (by omega))]

/-- C8 witness for `New_spec` at a 16×16 rectangle. -/
theorem New_spec_witness :
    (0 : Int) < Rectangle.dx ⟨0, 0, 16, 16⟩ ∧
    (0 : Int) < Rectangle.dy ⟨0, 0, 16, 16⟩ ∧
    ((New ⟨0, 0, 16, 16⟩).buf
        = List.replicate (New ⟨0, 0, 16, 16⟩).buf.length 0 ∧
      (New ⟨0, 0, 16, 16⟩).xn = ((16 : Int) + 7).tdiv 8 ∧
      (16 : Int) ≤ 8 * (New ⟨0, 0, 16, 16⟩).xn ∧
      8 * (New ⟨0, 0, 16, 16⟩).xn < (16 : Int) + 8 ∧
      (((New ⟨0, 0, 16, 16⟩).buf.length : Int)
        = (New ⟨0, 0, 16, 16⟩).xn * (16 : Int))) := by
  refine ⟨by decide, by decide, ?_⟩
  have h := New_spec ⟨0, 0, 16, 16⟩ (by decide) (by decide)
  exact h

/-- C6: any color that is not already a `Bit` is quantized to grayscale
and maps to foreground exactly when its 0–255 luminance exceeds 127
(for colors within the legal 16-bit RGBA range the luminance is indeed
on a 0–255 scale); a `Bit` round-trips exactly without the grayscale
conversion. -/
theorem toBit_spec (r g b a : Nat) (v : Bool)
    (hr : r ≤ 65535) (hg : g ≤ 65535) (hb : b ≤ 65535) :
    (grayY r g b ≤ 255 ∧
      (toBit (Color.rgba r g b a) = true ↔ 127 < grayY r g b)) ∧
    toBit (Color.bit v) = v := by
  have hy : grayY r g b ≤ 255 := by
    unfold grayY
    rw [Nat.shiftRight_eq_div_pow,
        show (2 : Nat) ^ 24 = 16777216 from by norm_num]
    omega
  refine ⟨⟨hy, ?_⟩, rfl⟩
  show decide (127 < grayY r g b % 256) = true ↔ 127 < grayY r g b
  rw [Nat.mod_eq_of_lt (by omega)]
  simp

/-- C6 witness for `toBit_spec`. -/
theorem toBit_spec_witness :
    ((30000 : Nat) ≤ 65535 ∧
      (grayY 30000 30000 30000 ≤ 255 ∧
        (toBit (Color.rgba 30000 30000 30000 65535) = true ↔
          127 < grayY 30000 30000 30000)) ∧
      toBit (Color.bit true) = true) ∧
    toBit (Color.rgba 30000 30000 30000 65535) = false ∧
    toBit (Color.rgba 40000 40000 40000 65535) = true := by
  exact ⟨⟨by decide,
    toBit_spec 30000 30000 30000 65535 true (by decide) (by decide)
      (by decide)⟩, by decide, by decide⟩

end Bitimg

namespace Otf2ccbdf

/-- C4: glyph-width classification is the same pure function of the
rounded advance and the half width in the metrics pass (`writeHeader`)
and the render pass (`writeBody`): rounded advance above the half width
selects the full-width cell, and the tie (and everything below) selects
the half-width cell. -/
theorem classification_spec (cvt : Converter) (adv : Int) :
    headerWidth cvt adv = bodyWidth cvt adv ∧
    (cvt.halfWidth < round26_6 adv → bodyWidth cvt adv = cvt.fullWidth) ∧
    (round26_6 adv = cvt.halfWidth → bodyWidth cvt adv = cvt.halfWidth) ∧
    (round26_6 adv < cvt.halfWidth → bodyWidth cvt adv = cvt.halfWidth) := by
  unfold headerWidth bodyWidth
  refine ⟨rfl, ?_, ?_, ?_⟩ <;> intro h
  · rw [if_pos h]
  · rw [if_neg (by omega)]
  · rw [if_neg (by omega)]

/-- C4 witness for `classification_spec`: at size 16 (half width 8), a
raw advance of 512 (8.0 in 26.6 fixed point) rounds to exactly the half
width and is classified half-width; 640 (10.0) is classified
full-width. -/
theorem classification_spec_witness :
    (round26_6 512 = (mkConverter 16 12 4).halfWidth ∧
      bodyWidth (mkConverter 16 12 4) 512 = (mkConverter 16 12 4).halfWidth) ∧
    ((mkConverter 16 12 4).halfWidth < round26_6 640 ∧
      bodyWidth (mkConverter 16 12 4) 640 = (mkConverter 16 12 4).fullWidth) := by
  exact ⟨⟨by decide, (classification_spec (mkConverter 16 12 4) 512).2.2.1
      (by decide)⟩,
    ⟨by decide, (classification_spec (mkConverter 16 12 4) 640).2.1
      (by decide)⟩⟩

/-- C3 (counterexample): the claim says every size that is not an even
positive integer is rejected before font loading.  But Go's
`size%2 == 1` is false for the negative odd size `-15` (the truncated
remainder is `-1`), so validation passes (`none`) and `Run` proceeds to
load the font. -/
theorem run_accepts_negative_odd_size :
    runValidate 1 "out.bdf" (-15) = none ∧
    ¬ ((2 : Int) ∣ (-15) ∧ (0 : Int) < -15) := by
  constructor
  · rfl
  · decide

/-- C3 (amended): once the argument-count and `-out` checks pass, `Run`
returns the size error — before any font loading or file creation —
exactly for the positive odd sizes; zero, negative, and even sizes pass
this validation. -/
theorem run_rejects_positive_odd_size (nargs : Nat) (outName : String)
    (size : Int) (h1 : nargs ≠ 0) (h2 : outName ≠ "") :
    runValidate nargs outName size = some "-size must be a multiple of 2" ↔
      0 < size ∧ ¬ (2 ∣ size) := by
  unfold runValidate
  rw [if_neg h1, if_neg h2]
  rw [← tmod_two_eq_one_iff]
  by_cases ht : size.tmod 2 = 1
  · rw [if_pos ht]
    simp [ht]
  · rw [if_neg ht]
    simp [ht]

/-- C3 witness for `run_rejects_positive_odd_size` at the claim's
example size 15. -/
theorem run_rejects_positive_odd_size_witness :
    ((1 : Nat) ≠ 0 ∧ "out.bdf" ≠ "") ∧
    (runValidate 1 "out.bdf" 15 = some "-size must be a multiple of 2" ↔
      (0 : Int) < 15 ∧ ¬ ((2 : Int) ∣ 15)) ∧
    runValidate 1 "out.bdf" 15 = some "-size must be a multiple of 2" := by
  refine ⟨⟨by decide, by decide⟩,
    run_rejects_positive_odd_size 1 "out.bdf" 15 (by decide) (by decide),
    by rfl⟩

end Otf2ccbdf

namespace Bitimg

/-- Replacing the buffer changes neither addressing (which reads only
`xn` and `rect`) nor bounds. -/
theorem Image.address_buf (img : Image) (b : List Nat) (x y : Int) :
    Image.address { img with buf := b } x y = img.address x y := rfl

/-- `testBit 255 k` for `k < 8`. -/
theorem testBit_255 {k : Nat} (hk : k < 8) :
    Nat.testBit 255 k = true := by
  rw [show (255 : Nat) = 2 ^ 8 - 1 from rfl, Nat.testBit_two_pow_sub_one]
  simp [hk]

/-- The byte update writes exactly the addressed bit. -/
theorem testBit_setByte_self {old k : Nat} {v : Bool} (hk : k < 8) :
    (setByte old k v).testBit k = v := by
  unfold setByte
  cases v
  · rw [if_neg (by simp), Nat.testBit_and, Nat.testBit_xor,
        Nat.testBit_two_pow_self, testBit_255 hk]
    simp
  · rw [if_pos rfl, Nat.testBit_or, Nat.testBit_two_pow_self]
    simp

/-- The byte update leaves every other bit of the byte unchanged. -/
theorem testBit_setByte_ne {old k k' : Nat} {v : Bool} (hne : k ≠ k')
    (hk' : k' < 8) :
    (setByte old k v).testBit k' = old.testBit k' := by
  unfold setByte
  cases v
  · rw [if_neg (by simp), Nat.testBit_and, Nat.testBit_xor,
        Nat.testBit_two_pow_of_ne hne, testBit_255 hk']
    simp
  · rw [if_pos rfl, Nat.testBit_or, Nat.testBit_two_pow_of_ne hne]
    simp

/-- C7: on any well-formed bitmap (of either cell geometry) and any
in-bounds coordinate, `Set` succeeds and a subsequent `At` at the same
coordinate reads the written binary value: white when `toBit c` is on,
black when it is off. -/
theorem set_get_roundtrip (img : Image) (x y : Int) (c : Color)
    (hwf : img.Wf) (hin : img.InBounds x y) :
    ∃ img', img.Set x y c = some img' ∧
      img'.At x y = some (if toBit c then white else black) := by
  obtain ⟨hi0, hil, hs0, hs8, _⟩ := Image.address_bounds hwf hin
  refine ⟨_, Image.Set_some c hwf hin, ?_⟩
  have hwf' : Image.Wf { img with
      buf := img.buf.set (img.address x y).1.toNat
        (setByte (img.buf.getD (img.address x y).1.toNat 0)
          (7 - (img.address x y).2.toNat) (toBit c)) } :=
    ⟨hwf.1, by simpa [List.length_set] using hwf.2⟩
  rw [Image.At_testBit hwf' hin]
  have hlt : (img.address x y).1.toNat < img.buf.length := by omega
  have hk : 7 - (img.address x y).2.toNat < 8 := by omega
  show some (if ((img.buf.set (img.address x y).1.toNat
      (setByte (img.buf.getD (img.address x y).1.toNat 0)
        (7 - (img.address x y).2.toNat) (toBit c))).getD
      (img.address x y).1.toNat 0).testBit
      (7 - (img.address x y).2.toNat) then white else black)
    = some (if toBit c then white else black)
  rw [List.getD_eq_getElem?_getD, List.getElem?_set_self hlt,
      Option.getD_some, testBit_setByte_self hk]

/-- C7 witness for `set_get_roundtrip` on a half-width (8×16) cell. -/
theorem set_get_roundtrip_witness :
    ((New ⟨0, 0, 8, 16⟩).Wf ∧ (New ⟨0, 0, 8, 16⟩).InBounds 5 11) ∧
    (∃ img', (New ⟨0, 0, 8, 16⟩).Set 5 11 white = some img' ∧
      img'.At 5 11 = some (if toBit white then white else black)) :=
  ⟨⟨by decide, by decide⟩,
   set_get_roundtrip (New ⟨0, 0, 8, 16⟩) 5 11 white (by decide) (by decide)⟩

/-- C10: on a well-formed bitmap, `Set` at an in-bounds coordinate
modifies at most that pixel: `At` at every other in-bounds coordinate is
unchanged. -/
theorem set_frame (img : Image) (x y x' y' : Int) (c : Color)
    (img' : Image) (hwf : img.Wf) (hin : img.InBounds x y)
    (hin' : img.InBounds x' y') (hne : ¬ (x = x' ∧ y = y'))
    (hset : img.Set x y c = some img') :
    img'.At x' y' = img.At x' y' := by
  obtain ⟨hi0, hil, hs0, hs8, _⟩ := Image.address_bounds hwf hin
  obtain ⟨hi0', hil', hs0', hs8', _⟩ := Image.address_bounds hwf hin'
  rw [Image.Set_some c hwf hin] at hset
  obtain rfl := Option.some.inj hset.symm
  have hwf' : Image.Wf { img with
      buf := img.buf.set (img.address x y).1.toNat
        (setByte (img.buf.getD (img.address x y).1.toNat 0)
          (7 - (img.address x y).2.toNat) (toBit c)) } :=
    ⟨hwf.1, by simpa [List.length_set] using hwf.2⟩
  rw [Image.At_testBit hwf' hin', Image.At_testBit hwf hin']
  show some (if ((img.buf.set (img.address x y).1.toNat
      (setByte (img.buf.getD (img.address x y).1.toNat 0)
        (7 - (img.address x y).2.toNat) (toBit c))).getD
      (img.address x' y').1.toNat 0).testBit
      (7 - (img.address x' y').2.toNat) then white else black)
    = some (if (img.buf.getD (img.address x' y').1.toNat 0).testBit
      (7 - (img.address x' y').2.toNat) then white else black)
  have hadne : img.address x y ≠ img.address x' y' := fun he =>
    hne (Image.address_inj hwf hin hin' he)
  by_cases hidx : (img.address x y).1 = (img.address x' y').1
  · have hsne : (img.address x y).2 ≠ (img.address x' y').2 := fun hs =>
      hadne (Prod.ext hidx hs)
    have hkk : 7 - (img.address x y).2.toNat
        ≠ 7 - (img.address x' y').2.toNat := by omega
    have hlt : (img.address x y).1.toNat < img.buf.length := by omega
    have hi : (img.address x' y').1.toNat = (img.address x y).1.toNat := by
      omega
    have hk' : 7 - (img.address x' y').2.toNat < 8 := by omega
    rw [hi, List.getD_eq_getElem?_getD, List.getElem?_set_self hlt,
        Option.getD_some, testBit_setByte_ne hkk hk']
  · have hine : (img.address x y).1.toNat ≠ (img.address x' y').1.toNat := by
      omega
    rw [List.getD_eq_getElem?_getD, List.getElem?_set_ne hine,
        ← List.getD_eq_getElem?_getD]

/-- C10 witness for `set_frame`: setting (0,0) on a fresh 8×8 bitmap
leaves the neighbouring pixel (1,0) unchanged. -/
theorem set_frame_witness :
    ((New ⟨0, 0, 8, 8⟩).Wf ∧ (New ⟨0, 0, 8, 8⟩).InBounds 0 0 ∧
      (New ⟨0, 0, 8, 8⟩).InBounds 1 0 ∧
      ¬ ((0 : Int) = 1 ∧ (0 : Int) = 0) ∧
      (New ⟨0, 0, 8, 8⟩).Set 0 0 white = some
        { New ⟨0, 0, 8, 8⟩ with buf := [128, 0, 0, 0, 0, 0, 0, 0] }) ∧
    ({ New ⟨0, 0, 8, 8⟩ with
        buf := [128, 0, 0, 0, 0, 0, 0, 0] } : Image).At 1 0
      = (New ⟨0, 0, 8, 8⟩).At 1 0 :=
  ⟨⟨by decide, by decide, by decide, by decide, by decide⟩,
   set_frame (New ⟨0, 0, 8, 8⟩) 0 0 1 0 white
     { New ⟨0, 0, 8, 8⟩ with buf := [128, 0, 0, 0, 0, 0, 0, 0] }
     (by decide) (by decide) (by decide) (by decide) (by decide)⟩

end Bitimg

namespace Otf2ccbdf

/-- The element `runeIter`'s filterMap body yields carries the scanned
codepoint itself and its reported advance. -/
theorem runeIter_body {advance : Nat → Option Int} {f : Nat → Bool}
    {r : Nat} {p : Nat × Int}
    (h : (match advance r with
          | none => none
          | some adv => if f r then some (r, adv) else none) = some p) :
    p.1 = r ∧ advance r = some p.2 := by
  rcases ha : advance r with _ | adv
  · rw [ha] at h
    cases h
  · rw [ha] at h
    dsimp only at h
    by_cases hfr : f r
    · rw [if_pos hfr] at h
      obtain rfl := Option.some.inj h
      exact ⟨rfl, rfl⟩
    · rw [if_neg hfr] at h
      cases h

/-- C5: the codepoint scanner yields pairs only for codepoints in
[0, 0xFFFF] whose advance the face reports, in strictly ascending
codepoint order (hence no duplicates), and — being a pure function of
the face and filter — two invocations yield identical sequences. -/
theorem runeIter_spec (advance : Nat → Option Int)
    (filter : Option (Nat → Bool)) :
    (∀ p ∈ runeIter advance filter,
      p.1 ≤ 0xFFFF ∧ advance p.1 = some p.2) ∧
    (runeIter advance filter).Pairwise (fun p q => p.1 < q.1) ∧
    runeIter advance filter = runeIter advance filter := by
  refine ⟨?_, ?_, rfl⟩
  · intro p hp
    simp only [runeIter, List.mem_filterMap, List.mem_range] at hp
    obtain ⟨r, hr, hf⟩ := hp
    obtain ⟨h1, h2⟩ := runeIter_body hf
    exact ⟨by omega, by rw [h1]; exact h2⟩
  · simp only [runeIter]
    refine List.Pairwise.filterMap _ ?_ (List.pairwise_lt_range _)
    intro a b hab p hp q hq
    rw [Option.mem_def] at hp hq
    obtain ⟨hpa, _⟩ := runeIter_body hp
    obtain ⟨hqb, _⟩ := runeIter_body hq
    rw [hpa, hqb]
    exact hab

/-- C5 witness for `runeIter_spec`: a face defining exactly codepoint 65
yields the pair (65, 640), which the theorem then certifies. -/
theorem runeIter_spec_witness :
    (65, (640 : Int)) ∈
      runeIter (fun r => if r = 65 then some 640 else none) none ∧
    ((65 : Nat) ≤ 0xFFFF ∧
      (if (65 : Nat) = 65 then some (640 : Int) else none) = some 640) :=
  have hm : (65, (640 : Int)) ∈
      runeIter (fun r => if r = 65 then some 640 else none) none :=
    List.mem_filterMap.mpr ⟨65, List.mem_range.mpr (by norm_num), rfl⟩
  ⟨hm, (runeIter_spec (fun r => if r = 65 then some 640 else none) none).1
    (65, 640) hm⟩

end Otf2ccbdf

namespace Otf2ccbdf

/-- One dumped row is two hex characters per byte. -/
theorem hexRow_length (bs : List Nat) :
    (hexRow bs).length = 2 * bs.length := by
  induction bs with
  | nil => rfl
  | cons b tl ih =>
    simp only [hexRow, hexByte, List.map_cons, List.flatten_cons,
      String.length_mk, List.length_append, List.length_cons,
      List.length_nil] at ih ⊢
    omega

/-- C9: a glyph's bitmap dump is exactly `height` lines, one per row,
each of exactly `2 * rowStride` uppercase-hex characters; an
all-background width-16 row (rowStride 2) dumps as `0000` and an
all-foreground one as `FFFF`. -/
theorem bitmap_dump_spec :
    (∀ (xn h : Nat) (buf : List Nat), 0 < xn → buf.length = xn * h →
      (dumpRows xn buf).length = h ∧
      ∀ line ∈ dumpRows xn buf, line.length = 2 * xn) ∧
    dumpRows 2 (List.replicate 2 0) = ["0000"] ∧
    dumpRows 2 (List.replicate 2 255) = ["FFFF"] := by
  refine ⟨?_, ?_, ?_⟩
  · intro xn h
    induction h with
    | zero =>
      intro buf hxn hlen
      have hnil : buf = [] := List.length_eq_zero.mp (by omega)
      subst hnil
      simp [dumpRows]
    | succ n ih =>
      intro buf hxn hlen
      have hne : buf ≠ [] := by
        intro h0
        rw [h0] at hlen
        simp only [List.length_nil] at hlen
        have : 0 < xn * (n + 1) := Nat.mul_pos hxn (by omega)
        omega
      rw [dumpRows, dif_neg (not_or.mpr ⟨hne, by omega⟩)]
      have hdrop : (buf.drop xn).length = xn * n := by
        rw [List.length_drop, hlen]
        have : xn * (n + 1) = xn * n + xn := by ring
        omega
      obtain ⟨ihlen, ihline⟩ := ih (buf.drop xn) hxn hdrop
      refine ⟨by simp [ihlen], ?_⟩
      intro line hl
      rcases List.mem_cons.mp hl with h1 | h2
      · subst h1
        rw [hexRow_length, List.length_take, hlen]
        have hle : xn ≤ xn * (n + 1) :=
          Nat.le_mul_of_pos_right xn (by omega)
        omega
      · exact ihline line h2
  · simp [dumpRows, hexRow, hexByte, hexDigit]
  · simp [dumpRows, hexRow, hexByte, hexDigit]

/-- C9 witness for `bitmap_dump_spec` on a 16×16 full-width buffer
(rowStride 2, 32 bytes). -/
theorem bitmap_dump_spec_witness :
    ((0 : Nat) < 2 ∧ (List.replicate 32 (0 : Nat)).length = 2 * 16) ∧
    ((dumpRows 2 (List.replicate 32 0)).length = 16 ∧
      ∀ line ∈ dumpRows 2 (List.replicate 32 0), line.length = 2 * 2) :=
  ⟨⟨by decide, by decide⟩,
   bitmap_dump_spec.1 2 16 (List.replicate 32 0) (by decide) (by decide)⟩

end Otf2ccbdf

namespace Otf2ccbdf

/-- C2 (counterexample): when the face reports no advance for any
codepoint, `writeHeader`'s loop leaves `glyphCount = 0`, and the header
computation then evaluates `widthSum * 10 / glyphCount` — a Go integer
division by zero, which panics (`none`); no error value is reported and
no check precedes the division. -/
theorem averageWidth_zero_glyphs :
    glyphCount (fun _ => none) = 0 ∧
    averageWidth (mkConverter 16 12 4) (fun _ => none) = none := by
  have h0 : runeIter (fun _ => none) none = ([] : List (Nat × Int)) := by
    simp [runeIter]
  exact ⟨by simp [glyphCount, h0], by simp [averageWidth, glyphCount, h0]⟩

/-- C2 (amended): with `glyphCount = 0` the average-width computation
divides by zero and panics before emitting any header; with
`glyphCount > 0` it produces `floor(widthSum * 10 / glyphCount)` (the
widths being non-negative, Go's truncated division is the floor). -/
theorem averageWidth_spec (cvt : Converter) (advance : Nat → Option Int)
    (hhw : 0 ≤ cvt.halfWidth) (hfw : 0 ≤ cvt.fullWidth) :
    (glyphCount advance = 0 → averageWidth cvt advance = none) ∧
    (glyphCount advance ≠ 0 →
      averageWidth cvt advance
        = some ((widthSum cvt advance * 10).fdiv (glyphCount advance))) := by
  constructor
  · intro h
    unfold averageWidth
    rw [if_pos h]
  · intro h
    unfold averageWidth
    rw [if_neg h]
    have hws : 0 ≤ widthSum cvt advance := by
      unfold widthSum
      refine List.sum_nonneg ?_
      intro w hw
      obtain ⟨p, hp, rfl⟩ := List.mem_map.mp hw
      unfold headerWidth
      split
      · exact hfw
      · exact hhw
    have hnum : 0 ≤ widthSum cvt advance * 10 :=
      mul_nonneg hws (by norm_num)
    have hden : (0 : Int) ≤ (glyphCount advance : Int) := Int.natCast_nonneg _
    rw [Int.tdiv_eq_ediv hnum hden, Int.fdiv_eq_ediv _ hden]

/-- C2 witness for `averageWidth_spec`: a face defining exactly the
codepoint 65 with a full-width advance has one glyph, and the average
width is the floor of `widthSum * 10 / 1`. -/
theorem averageWidth_spec_witness :
    ((0 : Int) ≤ (mkConverter 16 12 4).halfWidth ∧
      (0 : Int) ≤ (mkConverter 16 12 4).fullWidth ∧
      glyphCount (fun r => if r = 65 then some 640 else none) ≠ 0) ∧
    averageWidth (mkConverter 16 12 4)
        (fun r => if r = 65 then some 640 else none)
      = some ((widthSum (mkConverter 16 12 4)
          (fun r => if r = 65 then some 640 else none) * 10).fdiv
        (glyphCount (fun r => if r = 65 then some 640 else none))) :=
  have hm : (65, (640 : Int)) ∈
      runeIter (fun r => if r = 65 then some 640 else none) none :=
    List.mem_filterMap.mpr ⟨65, List.mem_range.mpr (by norm_num), rfl⟩
  have hne : glyphCount (fun r => if r = 65 then some 640 else none) ≠ 0 :=
    fun h => List.not_mem_nil _ (List.length_eq_zero.mp h ▸ hm)
  ⟨⟨by decide, by decide, hne⟩,
   (averageWidth_spec (mkConverter 16 12 4)
     (fun r => if r = 65 then some 640 else none)
     (by decide) (by decide)).2 hne⟩

end Otf2ccbdf
